import Mathlib

/-!
# Verification of the ArqonHPO Adaptive Engine core

Shallow embedding of the hot-path components of the Adaptive Engine
(`crates/core/src/adaptive_engine/`): the atomic configuration cell
(`config_atomic.rs`), the audit queue (`audit.rs`), the telemetry ring
buffer (`telemetry.rs`), the SPSA proposer (`spsa.rs`), the safety
executor (`safety_executor.rs`) and the control-safety latch
(`control_safety.rs`).

Modelling conventions:
* `f64` values are modelled as exact rationals (`ℚ`).  The properties
  verified here are control-flow, ordering and exact-copy properties; no
  claim depends on rounding.
* `u64`/`u32`/`usize` counters are modelled as `ℕ`.  The only wrapping
  operations in the sources are `fetch_add(1)` on the generation counter
  and window counters, whose wrap-around at `2^64` is unreachable from
  any reachable state (it would require `2^64` operations), so plain
  `ℕ` arithmetic is faithful.  `saturating_sub` on `u64` is `ℕ`
  subtraction, which is saturating by definition.
* Rust `HashMap`s are modelled as association lists in iteration order
  (`List (String × α)`, `lookup`), and the per-`ParamId` tracker maps of
  `control_safety.rs` (populated through `entry(..).or_default()`) as
  total functions `ℕ → α` with default values.
* `ChaCha8Rng` and `f64::powf` are kept abstract: the development is
  parameterised over an arbitrary deterministic generator state type
  with a `nextBool` step, and an arbitrary `rpow : ℚ → ℚ → ℚ`.  All
  theorems hold for every instantiation.
-/

namespace ArqonSpec

/-! ## config_atomic.rs -/

/-- `ParamVec`: dense parameter vector of `f64` values (modelled over `ℚ`). -/
abbrev ParamVec := List ℚ

/-- `ConfigSnapshot`: immutable configuration snapshot. -/
structure ConfigSnapshot where
  params : ParamVec
  generation : ℕ
deriving DecidableEq

/-- `ConfigSnapshot::new`: initial parameters with generation 0. -/
def ConfigSnapshot.new (params : ParamVec) : ConfigSnapshot :=
  { params := params, generation := 0 }

/-- `ConfigSnapshot::with_generation`. -/
def ConfigSnapshot.with_generation (params : ParamVec) (generation : ℕ) : ConfigSnapshot :=
  { params := params, generation := generation }

/-- `AtomicConfig`: current snapshot, generation counter, optional baseline.
The `RwLock`/`Arc` wrappers only provide sharing and are not part of the
sequential state. -/
structure AtomicConfig where
  inner : ConfigSnapshot
  generation : ℕ
  baseline : Option ConfigSnapshot
deriving DecidableEq

namespace AtomicConfig

/-- `AtomicConfig::new`. -/
def new (params : ParamVec) : AtomicConfig :=
  { inner := ConfigSnapshot.new params, generation := 0, baseline := none }

/-- `AtomicConfig::snapshot`. -/
def snapshot (c : AtomicConfig) : ConfigSnapshot := c.inner

/-- `AtomicConfig::swap`: increment the generation counter, publish a new
snapshot carrying the new generation, return the new generation. -/
def swap (c : AtomicConfig) (new_params : ParamVec) : ℕ × AtomicConfig :=
  let new_gen := c.generation + 1
  (new_gen,
    { c with inner := ConfigSnapshot.with_generation new_params new_gen
             generation := new_gen })

/-- `AtomicConfig::set_baseline`: capture the current snapshot. -/
def set_baseline (c : AtomicConfig) : AtomicConfig :=
  { c with baseline := some c.snapshot }

/-- `AtomicConfig::rollback`: if a baseline is set, publish a snapshot carrying
the baseline's params and the next generation; otherwise return `None` and
leave everything unchanged. -/
def rollback (c : AtomicConfig) : Option ℕ × AtomicConfig :=
  match c.baseline with
  | none => (none, c)
  | some b =>
    let new_gen := c.generation + 1
    (some new_gen,
      { c with inner := ConfigSnapshot.with_generation b.params new_gen
               generation := new_gen })

end AtomicConfig

/-- A swap or rollback request against the atomic config cell. -/
inductive ConfigOp
  | swap (params : ParamVec)
  | rollback

/-- Execute one operation; the second component is the snapshot the operation
published (`none` when a rollback fails for lack of a baseline). -/
def execOp (c : AtomicConfig) : ConfigOp → AtomicConfig × Option ConfigSnapshot
  | .swap p => ((c.swap p).2, some (c.swap p).2.inner)
  | .rollback =>
    match c.rollback with
    | (some _, c') => (c', some c'.inner)
    | (none, c') => (c', none)

/-- Run a sequence of operations, collecting every published snapshot. -/
def runConfig (c : AtomicConfig) : List ConfigOp → AtomicConfig × List ConfigSnapshot
  | [] => (c, [])
  | op :: ops =>
    let step := execOp c op
    let rest := runConfig step.1 ops
    (rest.1, step.2.toList ++ rest.2)

/-- **C1.** The generations of the snapshots published by any sequence of swap
and rollback operations form the contiguous range starting one above the
initial counter: every successful operation increments the counter by exactly
one (gap-free, failed rollbacks publish nothing and change nothing), each
published snapshot carries exactly the new counter value, and hence any two
consecutively published snapshots `s₁, s₂` satisfy
`s₂.generation = s₁.generation + 1`. -/
theorem atomicConfig_generation_gap_free (c : AtomicConfig) (ops : List ConfigOp) :
    (runConfig c ops).2.map ConfigSnapshot.generation
        = List.range' (c.generation + 1) (runConfig c ops).2.length
      ∧ (runConfig c ops).1.generation = c.generation + (runConfig c ops).2.length := by
  induction ops generalizing c with
  | nil => simp [runConfig]
  | cons op ops ih =>
    cases op with
    | swap p =>
      have h := ih ((c.swap p).2)
      simp only [runConfig, execOp, Option.toList] at *
      simp only [List.map_append, List.length_append, List.map_cons, List.map_nil,
        List.length_cons, List.length_nil] at *
      constructor
      · simp only [Nat.zero_add, Nat.add_comm 1]
        rw [List.range'_succ]
        simp [AtomicConfig.swap, ConfigSnapshot.with_generation] at h ⊢
        exact h.1
      · simp [AtomicConfig.swap] at h ⊢
        omega
    | rollback =>
      cases hb : c.baseline with
      | none =>
        have h := ih c
        simp only [runConfig, execOp, AtomicConfig.rollback, hb] at *
        simpa using h
      | some b =>
        have h := ih (c.rollback).2
        simp only [runConfig, execOp, AtomicConfig.rollback, hb, Option.toList] at *
        simp only [List.map_append, List.length_append, List.map_cons, List.map_nil,
          List.length_cons, List.length_nil] at *
        constructor
        · simp only [Nat.zero_add, Nat.add_comm 1]
          rw [List.range'_succ]
          simp [ConfigSnapshot.with_generation] at h ⊢
          exact h.1
        · simp at h ⊢
          omega

/-- **C2.** `rollback()` returns `None` and leaves the whole cell unchanged
when no baseline is set; when a baseline `b` was captured, it returns
`Some` of the new generation, and the newly published snapshot carries exactly
the baseline's params and the previous generation plus one (the baseline slot
itself is untouched). -/
theorem atomicConfig_rollback_spec (c : AtomicConfig) :
    match c.baseline with
    | none => c.rollback = (none, c)
    | some b =>
        c.rollback.1 = some (c.generation + 1)
          ∧ (c.rollback.2.snapshot).params = b.params
          ∧ (c.rollback.2.snapshot).generation = c.generation + 1
          ∧ c.rollback.2.generation = c.generation + 1
          ∧ c.rollback.2.baseline = some b := by
  cases hb : c.baseline with
  | none => simp [AtomicConfig.rollback, hb]
  | some b =>
    simp [AtomicConfig.rollback, hb, AtomicConfig.snapshot, ConfigSnapshot.with_generation]

/-! ## audit.rs -/

/-- `EventType`: audit event kinds. -/
inductive EventType
  | Digest
  | Proposal
  | Apply
  | Rollback
  | SafeModeEntered
  | SafeModeExited
deriving DecidableEq

/-- `AuditEvent`: structured audit event. -/
structure AuditEvent where
  event_type : EventType
  timestamp_us : ℕ
  run_id : ℕ
  proposal_id : Option ℕ
  config_version : ℕ
  payload : String
deriving DecidableEq

/-- `AuditEvent::new`. -/
def AuditEvent.new (event_type : EventType) (timestamp_us run_id config_version : ℕ) :
    AuditEvent :=
  { event_type := event_type, timestamp_us := timestamp_us, run_id := run_id
    proposal_id := none, config_version := config_version, payload := "" }

/-- `EnqueueResult`: result of an enqueue operation. -/
inductive EnqueueResult
  | Ok
  | HighWaterMark
  | Full
deriving DecidableEq

/-- `AuditQueue`: bounded queue (`ArrayQueue`) plus its capacity and
high-water mark.  The list front is the oldest element. -/
structure AuditQueue where
  queue : List AuditEvent
  capacity : ℕ
  high_water_mark : ℕ
deriving DecidableEq

/-- `AuditQueue::new`: `high_water_mark = (capacity * 80) / 100` in integer
(`usize`) arithmetic. -/
def AuditQueue.new (capacity : ℕ) : AuditQueue :=
  { queue := [], capacity := capacity, high_water_mark := capacity * 80 / 100 }

/-- `AuditQueue::enqueue`: `ArrayQueue::push` fails exactly when the queue
already holds `capacity` elements; on success the fill level *after* the push
is compared against the high-water mark. -/
def AuditQueue.enqueue (q : AuditQueue) (event : AuditEvent) : EnqueueResult × AuditQueue :=
  if q.queue.length = q.capacity then
    (EnqueueResult.Full, q)
  else
    let q' := { q with queue := q.queue ++ [event] }
    (if q'.queue.length ≥ q.high_water_mark then EnqueueResult.HighWaterMark
     else EnqueueResult.Ok, q')

/-- `AuditQueue::drain`: pop everything, in FIFO order. -/
def AuditQueue.drain (q : AuditQueue) : List AuditEvent × AuditQueue :=
  (q.queue, { q with queue := [] })

/-- An enqueue or drain request against the audit queue. -/
inductive AuditOp
  | enq (event : AuditEvent)
  | drain

/-- Run a sequence of operations.  Returns the final queue, the list of events
whose enqueue was accepted (returned `Ok` or `HighWaterMark`), in order, and
the concatenation of all drain outputs, in order. -/
def runAudit (q : AuditQueue) : List AuditOp → AuditQueue × List AuditEvent × List AuditEvent
  | [] => (q, [], [])
  | AuditOp.enq e :: ops =>
    let r := q.enqueue e
    let rest := runAudit r.2 ops
    (rest.1, (if r.1 = EnqueueResult.Full then [] else [e]) ++ rest.2.1, rest.2.2)
  | AuditOp.drain :: ops =>
    let d := q.drain
    let rest := runAudit d.2 ops
    (rest.1, rest.2.1, d.1 ++ rest.2.2)

/-- **C3.** Conservation and FIFO order for the audit queue: over any sequence
of enqueue and drain operations, the concatenation of all drain outputs
followed by the events still queued at the end equals the initial queue
contents followed by the accepted events, in acceptance order.  Hence every
accepted event appears exactly once in the drains (once a later drain runs),
drains preserve FIFO order, and an enqueue returning `Full` contributes
nothing. -/
theorem auditQueue_fifo_no_silent_drop (q : AuditQueue) (ops : List AuditOp) :
    (runAudit q ops).2.2 ++ (runAudit q ops).1.queue
      = q.queue ++ (runAudit q ops).2.1 := by
  induction ops generalizing q with
  | nil => simp [runAudit]
  | cons op ops ih =>
    cases op with
    | enq e =>
      by_cases hfull : q.queue.length = q.capacity
      · have h := ih q
        simp [runAudit, AuditQueue.enqueue, hfull] at *
        exact h
      · have h := ih { q with queue := q.queue ++ [e] }
        simp only [runAudit, AuditQueue.enqueue, hfull, if_false, ite_false] at *
        by_cases hw : q.queue.length + 1 ≥ q.high_water_mark
        · simp only [List.length_append, List.length_cons, List.length_nil] at *
          simp [hw] at h ⊢
          rw [h]
        · simp only [List.length_append, List.length_cons, List.length_nil] at *
          simp [hw] at h ⊢
          rw [h]
    | drain =>
      have h := ih { q with queue := [] }
      simp [runAudit, AuditQueue.drain] at *
      exact h

/-- **C4 counterexample.** On a queue of capacity 2, the very first enqueue is
accepted with result `HighWaterMark` although the resulting fill (1 event) is
strictly below 80% of the capacity (1 < 1.6): the claim's "Ok below 80% fill /
HighWaterMark at or above 80% fill" boundary does not match the code, whose
threshold is the floor `capacity * 80 / 100 = 1`. -/
theorem auditQueue_highwater_claim_counterexample :
    ((AuditQueue.new 2).enqueue (AuditEvent.new EventType.Digest 1 1 1)).1
        = EnqueueResult.HighWaterMark
      ∧ (1 : ℚ) < 80 / 100 * 2 := by
  constructor
  · rfl
  · norm_num

/-- **C4 (amended).** `enqueue` returns `Full` (and rejects) exactly when the
queue already holds `capacity` events; otherwise the event is appended and the
result is `HighWaterMark` exactly when the resulting fill is at or above the
high-water mark `⌊capacity · 80 / 100⌋` (integer division, as set by
`AuditQueue::new`), and `Ok` exactly when it is below that mark. -/
theorem auditQueue_enqueue_thresholds (A : ℕ) (q : AuditQueue) (e : AuditEvent) :
    (AuditQueue.new A).high_water_mark = A * 80 / 100
      ∧ ((q.enqueue e).1 = EnqueueResult.Full ↔ q.queue.length = q.capacity)
      ∧ ((q.enqueue e).1 = EnqueueResult.HighWaterMark
          ↔ q.queue.length ≠ q.capacity ∧ q.queue.length + 1 ≥ q.high_water_mark)
      ∧ ((q.enqueue e).1 = EnqueueResult.Ok
          ↔ q.queue.length ≠ q.capacity ∧ q.queue.length + 1 < q.high_water_mark)
      ∧ (q.enqueue e).2.queue
          = (if q.queue.length = q.capacity then q.queue else q.queue ++ [e]) := by
  refine ⟨rfl, ?_, ?_, ?_, ?_⟩ <;>
    · simp only [AuditQueue.enqueue]
      by_cases hfull : q.queue.length = q.capacity <;>
        by_cases hw : q.queue.length + 1 ≥ q.high_water_mark <;>
          simp [hfull, hw] <;> omega

/-! ## telemetry.rs -/

/-- `TelemetryDigest`: compact telemetry record. -/
structure TelemetryDigest where
  timestamp_us : ℕ
  objective_value : ℚ
  latency_p99_us : Option ℕ
  throughput_rps : Option ℚ
  error_rate : Option ℚ
  memory_bytes : Option ℕ
  constraint_margin : Option ℚ
deriving DecidableEq

/-- `TelemetryDigest::objective`: minimal digest (all other fields default). -/
def TelemetryDigest.objective (value : ℚ) : TelemetryDigest :=
  { timestamp_us := 0, objective_value := value, latency_p99_us := none
    throughput_rps := none, error_rate := none, memory_bytes := none
    constraint_margin := none }

/-- `TelemetryRingBuffer`: the struct holds exactly a `VecDeque` buffer and a
capacity — these are its *only* fields; no drop counter exists anywhere in
`telemetry.rs`. -/
structure TelemetryRingBuffer where
  buffer : List TelemetryDigest
  capacity : ℕ
deriving DecidableEq

/-- `TelemetryRingBuffer::new`. -/
def TelemetryRingBuffer.new (capacity : ℕ) : TelemetryRingBuffer :=
  { buffer := [], capacity := capacity }

/-- `TelemetryRingBuffer::push`: evict the oldest digest (`pop_front`) when at
capacity, then append.  Nothing else is touched. -/
def TelemetryRingBuffer.push (b : TelemetryRingBuffer) (digest : TelemetryDigest) :
    TelemetryRingBuffer :=
  let b' := if b.buffer.length ≥ b.capacity then { b with buffer := b.buffer.tail } else b
  { b' with buffer := b'.buffer ++ [digest] }

/-- **C9 (code evaluation at the failing input).** Pushing into a
`TelemetryRingBuffer` of capacity 1 that is already full yields *exactly* the
state `{ buffer := [second digest], capacity := 1 }`: the oldest digest is
evicted, and the resulting state — shown here in full — contains no drop
counter that could have been incremented or observed, contradicting the
claimed monotonically increasing, caller-observable drop counter. -/
theorem telemetry_push_full_evicts_no_counter :
    ((TelemetryRingBuffer.new 1).push (TelemetryDigest.objective 1)).push
        (TelemetryDigest.objective 2)
      = { buffer := [TelemetryDigest.objective 2], capacity := 1 } := by
  rfl

/-! ## config.rs: `Domain` and `Scale` -/

/-- `Scale`: parameter domain scale. -/
inductive Scale
  | Linear
  | Log
  | Periodic
deriving DecidableEq

/-- `Domain`: parameter bounds. -/
structure Domain where
  min : ℚ
  max : ℚ
  scale : Scale
deriving DecidableEq

/-! ## spsa.rs

The optimizer is parameterised over the PRNG state type `σ` with a step
function `nextBool : σ → Bool × σ` (one Bernoulli(0.5) draw of
`ChaCha8Rng`), a seeding function `seedFrom : ℕ → σ`
(`ChaCha8Rng::seed_from_u64`, a pure function of the seed), and
`rpow : ℚ → ℚ → ℚ` (`f64::powf`).  All theorems hold for every
instantiation of these parameters. -/

/-- `SpsaState`: state machine for the two-measurement cycle.  Perturbations
are `HashMap<String, f64>` values, modelled as association lists in iteration
order. -/
inductive SpsaState
  | Ready
  | WaitingPlus (perturbation : List (String × ℚ))
  | WaitingMinus (perturbation : List (String × ℚ)) (y_plus : ℚ)
deriving DecidableEq

/-- `Spsa`: optimizer state. -/
structure Spsa (σ : Type) where
  rng : σ
  bounds : List (String × Domain)
  a : ℚ
  c : ℚ
  k : ℕ
  big_a : ℚ
  alpha : ℚ
  gamma : ℚ
  state : SpsaState

/-- `Spsa::new`: seeds the PRNG from `seed` once, sets the standard schedule
constants `A = 100, α = 0.602, γ = 0.101`, iteration `k = 0`, state `Ready`. -/
def Spsa.new {σ : Type} (seedFrom : ℕ → σ) (seed : ℕ)
    (learning_rate perturbation_scale : ℚ) (bounds : List (String × Domain)) : Spsa σ :=
  { rng := seedFrom seed, bounds := bounds, a := learning_rate
    c := perturbation_scale, k := 0, big_a := 100, alpha := 602 / 1000
    gamma := 101 / 1000, state := SpsaState.Ready }

/-- `Spsa::ak`: current learning rate `a / (k + 1 + A)^α`. -/
def Spsa.ak {σ : Type} (rpow : ℚ → ℚ → ℚ) (s : Spsa σ) : ℚ :=
  s.a / rpow ((s.k : ℚ) + 1 + s.big_a) s.alpha

/-- `Spsa::ck`: current perturbation magnitude `c / (k + 1)^γ`. -/
def Spsa.ck {σ : Type} (rpow : ℚ → ℚ → ℚ) (s : Spsa σ) : ℚ :=
  s.c / rpow ((s.k : ℚ) + 1) s.gamma

/-- `Spsa::generate_perturbation`: one ±1 Bernoulli draw per bounds key in
iteration order, each scaled by `c_k`; the PRNG state advances. -/
def Spsa.generate_perturbation {σ : Type} (nextBool : σ → Bool × σ) (rpow : ℚ → ℚ → ℚ)
    (s : Spsa σ) : List (String × ℚ) × Spsa σ :=
  let ck := s.ck rpow
  let acc := s.bounds.foldl
    (fun acc kv =>
      let draw := nextBool acc.2
      (acc.1 ++ [(kv.1, (if draw.1 then 1 else -1) * ck)], draw.2))
    (([] : List (String × ℚ)), s.rng)
  (acc.1, { s with rng := acc.2 })

/-- `Spsa::step`: the three-state observation cycle.  In `WaitingMinus` the
update is computed per dimension, guarded by `δ.abs() < 1e-10`, `k` is
incremented and the state returns to `Ready`. -/
def Spsa.step {σ : Type} (nextBool : σ → Bool × σ) (rpow : ℚ → ℚ → ℚ) (s : Spsa σ)
    (objective_value : ℚ) : Option (List (String × ℚ)) × Spsa σ :=
  match s.state with
  | SpsaState.Ready =>
    let g := s.generate_perturbation nextBool rpow
    (none, { g.2 with state := SpsaState.WaitingPlus g.1 })
  | SpsaState.WaitingPlus perturbation =>
    (none, { s with state := SpsaState.WaitingMinus perturbation objective_value })
  | SpsaState.WaitingMinus perturbation y_plus =>
    let y_minus := objective_value
    let lr := s.ak rpow
    let delta := perturbation.map fun kv =>
      if |kv.2| < 1 / 10 ^ 10 then (kv.1, (0 : ℚ))
      else (kv.1, -lr * ((y_plus - y_minus) / (2 * kv.2)))
    (some delta, { s with k := s.k + 1, state := SpsaState.Ready })

/-- `Spsa::current_perturbation_plus`. -/
def Spsa.current_perturbation_plus {σ : Type} (s : Spsa σ) :
    Option (List (String × ℚ)) :=
  match s.state with
  | SpsaState.WaitingPlus perturbation => some perturbation
  | _ => none

/-- Run `step` over a stream of objective values, collecting after every step
the pending plus-perturbation (if any) and the step's update output. -/
def Spsa.run {σ : Type} (nextBool : σ → Bool × σ) (rpow : ℚ → ℚ → ℚ) (s : Spsa σ) :
    List ℚ → List (Option (List (String × ℚ)) × Option (List (String × ℚ))) × Spsa σ
  | [] => ([], s)
  | y :: ys =>
    let r := s.step nextBool rpow y
    let rest := r.2.run nextBool rpow ys
    ((r.2.current_perturbation_plus, r.1) :: rest.1, rest.2)

/-- **C5 counterexample.** The zero-perturbation guard in `Spsa::step` fires on
`|δ_i| < 1e-10`, not only on `δ_i = 0`: in state `WaitingMinus` with
`δ_x = 10⁻¹¹ ≠ 0` and `y⁺ = 1`, a step with `y⁻ = 0` returns the update `0`
for `x`, although the claimed formula `−a_k·(y⁺ − y⁻)/(2·δ_x)` is nonzero.
(The state is reachable: constructing the optimizer with
`perturbation_scale = 1e-11` makes `generate_perturbation` emit
`δ_x = ±1e-11` at `k = 0`.) -/
theorem spsa_small_delta_counterexample :
    (Spsa.step (σ := Unit) (fun u => (true, u)) (fun _ _ => 1)
        { rng := (), bounds := [("x", ⟨0, 1, Scale.Linear⟩)], a := 1 / 10
          c := 1 / 10 ^ 11, k := 0, big_a := 100, alpha := 602 / 1000
          gamma := 101 / 1000
          state := SpsaState.WaitingMinus [("x", 1 / 10 ^ 11)] 1 } 0).1
        = some [("x", 0)]
      ∧ (1 / 10 ^ 11 : ℚ) ≠ 0
      ∧ -(Spsa.ak (σ := Unit) (fun _ _ => 1)
            { rng := (), bounds := [("x", ⟨0, 1, Scale.Linear⟩)], a := 1 / 10
              c := 1 / 10 ^ 11, k := 0, big_a := 100, alpha := 602 / 1000
              gamma := 101 / 1000
              state := SpsaState.WaitingMinus [("x", 1 / 10 ^ 11)] 1 })
          * ((1 - 0) / (2 * (1 / 10 ^ 11))) ≠ 0 := by
  have hlt : ¬ ((10 : ℚ) ^ 10)⁻¹ ≤ |((10 : ℚ) ^ 11)⁻¹| := by
    rw [abs_of_pos (by norm_num)]
    norm_num
  refine ⟨by simp [Spsa.step, hlt], by norm_num, ?_⟩
  simp only [Spsa.ak]
  norm_num

/-- **C5 (amended).** For the SPSA stepper in state `WaitingMinus` holding
perturbation `δ` and recorded value `y⁺`, a step with objective value `y⁻`
returns `Some(update)` where for every dimension `i` the update is
`−a_k·(y⁺ − y⁻)/(2·δ_i)` when `|δ_i| ≥ 1e-10`, and exactly `0` when
`|δ_i| < 1e-10` (the code's epsilon guard — in particular when `δ_i = 0`);
the iteration counter `k` increases by exactly 1 and the state returns to
`Ready`.  In every other state the step emits no update and `k` is
unchanged. -/
theorem spsa_step_waiting_minus_spec {σ : Type} (nextBool : σ → Bool × σ)
    (rpow : ℚ → ℚ → ℚ) (s : Spsa σ) (y : ℚ) :
    ((s.step nextBool rpow y).2.k
        = match s.state with
          | SpsaState.WaitingMinus _ _ => s.k + 1
          | _ => s.k)
      ∧ match s.state with
        | SpsaState.WaitingMinus perturbation y_plus =>
            (s.step nextBool rpow y).1
                = some (perturbation.map fun kv =>
                    if |kv.2| < 1 / 10 ^ 10 then (kv.1, (0 : ℚ))
                    else (kv.1, -(s.ak rpow) * ((y_plus - y) / (2 * kv.2))))
              ∧ (s.step nextBool rpow y).2.state = SpsaState.Ready
        | _ => (s.step nextBool rpow y).1 = none := by
  cases hs : s.state with
  | Ready => simp [Spsa.step, Spsa.generate_perturbation, hs]
  | WaitingPlus p => simp [Spsa.step, hs]
  | WaitingMinus p yp => exact ⟨by simp [Spsa.step, hs], by simp [Spsa.step, hs],
      by simp [Spsa.step, hs]⟩

/-- **C8.** Two-run determinism: two SPSA optimizers constructed with the same
seed, the same learning-rate and perturbation-scale constants and the same
bounds (in the same iteration order), fed the identical sequence of objective
values, produce identical traces of perturbations and update deltas — for
every model of the PRNG (`seedFrom`/`nextBool`) and of `powf`, since
construction reseeds the PRNG purely from the seed and stepping consumes no
other source of nondeterminism. -/
theorem spsa_two_run_determinism {σ : Type} (nextBool : σ → Bool × σ)
    (rpow : ℚ → ℚ → ℚ) (seedFrom : ℕ → σ) (seed₁ seed₂ : ℕ) (lr₁ lr₂ ps₁ ps₂ : ℚ)
    (bounds₁ bounds₂ : List (String × Domain)) (objs₁ objs₂ : List ℚ)
    (hseed : seed₁ = seed₂) (hlr : lr₁ = lr₂) (hps : ps₁ = ps₂)
    (hbounds : bounds₁ = bounds₂) (hobjs : objs₁ = objs₂) :
    ((Spsa.new seedFrom seed₁ lr₁ ps₁ bounds₁).run nextBool rpow objs₁).1
      = ((Spsa.new seedFrom seed₂ lr₂ ps₂ bounds₂).run nextBool rpow objs₂).1 := by
  subst hseed hlr hps hbounds hobjs
  rfl

/-- Witness for C8 at a concrete instantiation: `σ = ℕ`, a parity-based
`nextBool`, identity seeding, constant `rpow`, seed 42, one bounded parameter
and a three-element objective stream. -/
theorem spsa_two_run_determinism_witness :
    ((Spsa.new (σ := ℕ) (fun n => n) 42 (1 / 10) (1 / 100)
          [("x", ⟨0, 1, Scale.Linear⟩)]).run
        (fun n => (decide (n % 2 = 0), n + 1)) (fun _ _ => 1) [0, 1, 2]).1
      = ((Spsa.new (σ := ℕ) (fun n => n) 42 (1 / 10) (1 / 100)
          [("x", ⟨0, 1, Scale.Linear⟩)]).run
        (fun n => (decide (n % 2 = 0), n + 1)) (fun _ _ => 1) [0, 1, 2]).1 :=
  spsa_two_run_determinism (fun n => (decide (n % 2 = 0), n + 1)) (fun _ _ => 1)
    (fun n => n) 42 42 (1 / 10) (1 / 10) (1 / 100) (1 / 100)
    [("x", ⟨0, 1, Scale.Linear⟩)] [("x", ⟨0, 1, Scale.Linear⟩)] [0, 1, 2] [0, 1, 2]
    rfl rfl rfl rfl rfl

/-! ## safety_executor.rs -/

/-- `Guardrails` (the `safety_executor.rs` version). -/
structure Guardrails where
  max_delta_per_step : ℚ
  max_updates_per_second : ℚ
  min_interval_us : ℕ
deriving DecidableEq

/-- `Violation`.  In `RateLimitExceeded` the reported `updates_per_sec` is an
`f64` that the code sets to `f64::INFINITY` when no window time has elapsed;
it is modelled as `Option ℚ` with `none` standing for the infinite value. -/
inductive Violation
  | DeltaTooLarge (param : String) (delta max : ℚ)
  | RateLimitExceeded (updates_per_sec : Option ℚ) (max : ℚ)
  | OutOfBounds (param : String) (value min max : ℚ)
  | UnknownParameter (param : String)
deriving DecidableEq

/-- `SafetyExecutor` state. -/
structure SafetyExecutor where
  guardrails : Guardrails
  bounds : List (String × Domain)
  baseline : Option (List (String × ℚ))
  last_update_us : ℕ
  updates_in_window : ℕ
  window_start_us : ℕ
deriving DecidableEq

/-- `SafetyExecutor::new`. -/
def SafetyExecutor.new (guardrails : Guardrails) (bounds : List (String × Domain)) :
    SafetyExecutor :=
  { guardrails := guardrails, bounds := bounds, baseline := none
    last_update_us := 0, updates_in_window := 0, window_start_us := 0 }

/-- `SafetyExecutor::validate_delta`: iterate over the delta entries; for each
entry the unknown-parameter gate, then the delta-magnitude gate, then — only
when the parameter is present in `current` — the bounds gate. -/
def SafetyExecutor.validate_delta (ex : SafetyExecutor) (current : List (String × ℚ)) :
    List (String × ℚ) → Except Violation Unit
  | [] => Except.ok ()
  | (param, d) :: rest =>
    match ex.bounds.lookup param with
    | none => Except.error (Violation.UnknownParameter param)
    | some domain =>
      if |d| > ex.guardrails.max_delta_per_step then
        Except.error (Violation.DeltaTooLarge param d ex.guardrails.max_delta_per_step)
      else
        match current.lookup param with
        | some current_val =>
          if current_val + d < domain.min ∨ current_val + d > domain.max then
            Except.error
              (Violation.OutOfBounds param (current_val + d) domain.min domain.max)
          else ex.validate_delta current rest
        | none => ex.validate_delta current rest

/-- `SafetyExecutor::check_rate_limit`: the only rejection condition is
`current_time_us < last_update_us + min_interval_us`; the window rate is
computed solely to populate the violation payload. -/
def SafetyExecutor.check_rate_limit (ex : SafetyExecutor) (current_time_us : ℕ) :
    Except Violation Unit :=
  if current_time_us < ex.last_update_us + ex.guardrails.min_interval_us then
    let elapsed_us := current_time_us - ex.window_start_us
    let rate : Option ℚ :=
      if 0 < elapsed_us then
        some ((ex.updates_in_window : ℚ) / ((elapsed_us : ℚ) / 1000000))
      else none
    Except.error (Violation.RateLimitExceeded rate ex.guardrails.max_updates_per_second)
  else Except.ok ()

/-- `SafetyExecutor::record_update`. -/
def SafetyExecutor.record_update (ex : SafetyExecutor) (current_time_us : ℕ) :
    SafetyExecutor :=
  let ex' :=
    if current_time_us > ex.window_start_us + 1000000 then
      { ex with window_start_us := current_time_us, updates_in_window := 0 }
    else ex
  { ex' with updates_in_window := ex'.updates_in_window + 1
             last_update_us := current_time_us }

/-- **C6 counterexample.** An executor whose measured window rate vastly
exceeds `max_updates_per_second` (10⁶ updates in 0.1 s = 10⁷/s > 10/s) still
passes `check_rate_limit` as soon as the minimum-interval condition is
satisfied (`now = last_apply + min_interval`): the updates-per-second rate
alone never causes a rejection, contradicting the claim's second disjunct. -/
theorem check_rate_limit_rate_only_counterexample :
    (SafetyExecutor.check_rate_limit
        { guardrails := { max_delta_per_step := 1 / 10, max_updates_per_second := 10
                          min_interval_us := 100000 }
          bounds := [], baseline := none, last_update_us := 0
          updates_in_window := 1000000, window_start_us := 0 } 100000)
        = Except.ok ()
      ∧ ((1000000 : ℚ) / ((100000 : ℚ) / 1000000)) > 10 := by
  constructor
  · rfl
  · norm_num

/-- **C6 (amended).** `check_rate_limit` rejects with `RateLimitExceeded`
*exactly* when `now < last_apply_us + min_interval_us`; the measured
updates-per-second rate (updates in the current window divided by the seconds
elapsed since the window start, infinite when no time has elapsed) appears
only in the violation payload and is never by itself a rejection criterion. -/
theorem check_rate_limit_interval_only (ex : SafetyExecutor) (now : ℕ) :
    (ex.check_rate_limit now = Except.ok ()
        ↔ ex.last_update_us + ex.guardrails.min_interval_us ≤ now)
      ∧ ex.check_rate_limit now
          = (if now < ex.last_update_us + ex.guardrails.min_interval_us then
              Except.error (Violation.RateLimitExceeded
                (if 0 < now - ex.window_start_us then
                  some ((ex.updates_in_window : ℚ)
                    / (((now - ex.window_start_us : ℕ) : ℚ) / 1000000))
                 else none)
                ex.guardrails.max_updates_per_second)
             else Except.ok ()) := by
  constructor
  · by_cases h : now < ex.last_update_us + ex.guardrails.min_interval_us
    · simp only [SafetyExecutor.check_rate_limit, if_pos h]
      constructor
      · intro hcon
        exact absurd hcon (by simp)
      · intro hge
        omega
    · simp only [SafetyExecutor.check_rate_limit, if_neg h]
      constructor
      · intro _
        omega
      · intro _
        trivial
  · by_cases h : now < ex.last_update_us + ex.guardrails.min_interval_us
    · simp [SafetyExecutor.check_rate_limit, h]
    · simp [SafetyExecutor.check_rate_limit, h]

/-- **C10.** The bounds gate of `validate_delta` applies only to parameters
present in the `current`-values map: an entry `(param, d)` whose parameter has
a registered domain, passes the delta-magnitude gate and is absent from
`current` is skipped entirely — for *every* domain, even one no value could
satisfy — so validation of any delta list containing it equals validation of
the list with the entry removed. -/
theorem validate_delta_skips_bounds_when_absent (ex : SafetyExecutor)
    (current pre post : List (String × ℚ)) (param : String) (d : ℚ) (domain : Domain)
    (hdom : ex.bounds.lookup param = some domain)
    (hmag : ¬ |d| > ex.guardrails.max_delta_per_step)
    (hcur : current.lookup param = none) :
    ex.validate_delta current (pre ++ (param, d) :: post)
      = ex.validate_delta current (pre ++ post) := by
  induction pre with
  | nil => simp [SafetyExecutor.validate_delta, hdom, hmag, hcur]
  | cons hd tl ih =>
    obtain ⟨p', d'⟩ := hd
    simp only [List.cons_append, SafetyExecutor.validate_delta]
    cases hb : ex.bounds.lookup p' with
    | none => rfl
    | some dom' =>
      by_cases hm : |d'| > ex.guardrails.max_delta_per_step
      · simp [hm]
      · simp only [hm, if_false]
        cases hc : current.lookup p' with
        | none => exact ih
        | some cv =>
          by_cases hob : cv + d' < dom'.min ∨ cv + d' > dom'.max
          · simp [hob]
          · simp only [hob, if_false]
            exact ih

/-- Witness for C10: the parameter `x` has the unsatisfiable domain
`[min, max] = [0, 0]` registered, the delta `1/20` passes the magnitude gate,
`x` is absent from the current map `[("y", 5)]`, and validation indeed skips
the bounds gate. -/
theorem validate_delta_skips_bounds_when_absent_witness :
    (SafetyExecutor.new { max_delta_per_step := 1 / 10, max_updates_per_second := 10
                          min_interval_us := 100000 }
          [("x", ⟨0, 0, Scale.Linear⟩)]).bounds.lookup "x"
        = some (⟨0, 0, Scale.Linear⟩ : Domain)
      ∧ ¬ |(1 / 20 : ℚ)| > (1 / 10 : ℚ)
      ∧ ([("y", (5 : ℚ))] : List (String × ℚ)).lookup "x" = none
      ∧ (SafetyExecutor.new { max_delta_per_step := 1 / 10, max_updates_per_second := 10
                              min_interval_us := 100000 }
            [("x", ⟨0, 0, Scale.Linear⟩)]).validate_delta [("y", 5)]
            ([] ++ ("x", 1 / 20) :: [])
          = (SafetyExecutor.new { max_delta_per_step := 1 / 10, max_updates_per_second := 10
                                  min_interval_us := 100000 }
              [("x", ⟨0, 0, Scale.Linear⟩)]).validate_delta [("y", 5)] ([] ++ []) :=
  ⟨by decide,
   by rw [gt_iff_lt, not_lt, abs_of_pos (by norm_num)]; norm_num,
   by decide,
   validate_delta_skips_bounds_when_absent _ _ [] [] "x" (1 / 20) ⟨0, 0, Scale.Linear⟩
     (by decide)
     (by
       simp only [SafetyExecutor.new]
       rw [gt_iff_lt, not_lt, abs_of_pos (by norm_num)]
       norm_num)
     (by decide)⟩

/-! ## control_safety.rs -/

/-- `SafeModeReason`. -/
inductive SafeModeReason
  | Thrashing
  | BudgetExhausted
  | ObjectiveRegression
  | AuditQueueFull
  | RepeatedViolations
  | ManualTrigger
deriving DecidableEq

/-- `SafeModeExit`. -/
inductive SafeModeExit
  | Timer (remaining_us : ℕ)
  | ManualReset
  | ObjectiveRecovery (required_improvement : ℚ)
deriving DecidableEq

/-- `SafeMode`: latch state. -/
structure SafeMode where
  entered_at_us : ℕ
  reason : SafeModeReason
  exit_condition : SafeModeExit
deriving DecidableEq

/-- Guardrails as consumed by `control_safety.rs`.

Modelled from the spec: `control_safety.rs` imports `Guardrails` from the
`adaptive_engine::executor` module, which `mod.rs` declares but whose source
file is absent from the tree; spec §3 ("Guardrails") lists its fields, of
which `record_delta`/`record_objective` read the four below. -/
structure CtrlGuardrails where
  direction_flip_limit : ℕ
  cooldown_after_flip_us : ℕ
  max_cumulative_delta_per_minute : ℚ
  regression_count_limit : ℕ
deriving DecidableEq

/-- `DirectionHistory` (per-parameter flip tracking; `Default` is
`(None, 0, 0)`). -/
structure DirectionHistory where
  last_direction : Option Int
  flip_count : ℕ
  window_start_us : ℕ
deriving DecidableEq

/-- `DeltaBudget` (per-parameter cumulative `|δ|` tracking; `Default` is
`(0.0, 0)`). -/
structure DeltaBudget where
  cumulative : ℚ
  window_start_us : ℕ
deriving DecidableEq

/-- `ControlSafety` state.  The `HashMap<ParamId, _>` trackers, populated via
`entry(..).or_default()`, are modelled as total functions with the `Default`
values. -/
structure ControlSafety where
  guardrails : CtrlGuardrails
  direction_tracker : ℕ → DirectionHistory
  delta_budget : ℕ → DeltaBudget
  consecutive_regressions : ℕ
  last_objective : Option ℚ
  safe_mode : Option SafeMode

/-- `ControlSafety::new`. -/
def ControlSafety.new (g : CtrlGuardrails) : ControlSafety :=
  { guardrails := g
    direction_tracker := fun _ => ⟨none, 0, 0⟩
    delta_budget := fun _ => ⟨0, 0⟩
    consecutive_regressions := 0
    last_objective := none
    safe_mode := none }

/-- `ControlSafety::enter_safe_mode`: always latches a `Timer` exit carrying
the given cooldown. -/
def ControlSafety.enter_safe_mode (cs : ControlSafety) (reason : SafeModeReason)
    (now_us cooldown_us : ℕ) : ControlSafety :=
  { cs with safe_mode := some ⟨now_us, reason, SafeModeExit.Timer cooldown_us⟩ }

/-- The `direction` computed in `record_delta`: `1` if `d > 0`, `-1` if
`d < 0`, else `0`. -/
def direction_of (d : ℚ) : Int :=
  if 0 < d then 1 else if d < 0 then -1 else 0

/-- One `record_delta` loop iteration on a parameter's `DirectionHistory`:
window reset (`saturating_sub`), flip detection among nonzero directions, and
the thrashing trigger (`flip_count > direction_flip_limit`, checked right
after the increment).  Returns the new history and the trigger flag. -/
def stepHistory (g : CtrlGuardrails) (h : DirectionHistory) (d : ℚ) (now_us : ℕ) :
    DirectionHistory × Bool :=
  let h := if now_us - h.window_start_us > 60000000 then
      { h with flip_count := 0, window_start_us := now_us } else h
  let direction := direction_of d
  if direction ≠ 0 then
    match h.last_direction with
    | some last =>
      if last ≠ 0 ∧ last ≠ direction then
        ({ h with flip_count := h.flip_count + 1, last_direction := some direction },
         decide (h.flip_count + 1 > g.direction_flip_limit))
      else ({ h with last_direction := some direction }, false)
    | none => ({ h with last_direction := some direction }, false)
  else (h, false)

/-- One `record_delta` loop iteration on a parameter's `DeltaBudget`: window
reset, accumulate `|d|`, and the budget trigger. -/
def stepBudget (g : CtrlGuardrails) (b : DeltaBudget) (d : ℚ) (now_us : ℕ) :
    DeltaBudget × Bool :=
  let b := if now_us - b.window_start_us > 60000000 then
      { b with cumulative := 0, window_start_us := now_us } else b
  let b := { b with cumulative := b.cumulative + |d| }
  (b, decide (b.cumulative > g.max_cumulative_delta_per_minute))

/-- `delta.iter().enumerate()` starting at index `n`. -/
def enumFromQ (n : ℕ) : List ℚ → List (ℕ × ℚ)
  | [] => []
  | d :: rest => (n, d) :: enumFromQ (n + 1) rest

/-- The `record_delta` loop over the enumerated delta vector, threading the
two tracker maps and the two SafeMode trigger flags. -/
def recordLoop (g : CtrlGuardrails) (now_us : ℕ) :
    List (ℕ × ℚ) → (ℕ → DirectionHistory) → (ℕ → DeltaBudget) → Bool → Bool →
      (ℕ → DirectionHistory) × (ℕ → DeltaBudget) × Bool × Bool
  | [], tracker, budget, thrash, over => (tracker, budget, thrash, over)
  | p :: rest, tracker, budget, thrash, over =>
    let hres := stepHistory g (tracker p.1) p.2 now_us
    let bres := stepBudget g (budget p.1) p.2 now_us
    recordLoop g now_us rest
      (fun j => if j = p.1 then hres.1 else tracker j)
      (fun j => if j = p.1 then bres.1 else budget j)
      (thrash || hres.2) (over || bres.2)

/-- `ControlSafety::record_delta`: run the loop, then enter SafeMode —
`Thrashing` taking precedence over `BudgetExhausted` — with a `Timer` exit of
`cooldown_after_flip_us`. -/
def ControlSafety.record_delta (cs : ControlSafety) (delta : ParamVec) (now_us : ℕ) :
    ControlSafety :=
  let res := recordLoop cs.guardrails now_us (enumFromQ 0 delta)
    cs.direction_tracker cs.delta_budget false false
  let cs' := { cs with direction_tracker := res.1, delta_budget := res.2.1 }
  if res.2.2.1 then
    cs'.enter_safe_mode SafeModeReason.Thrashing now_us cs.guardrails.cooldown_after_flip_us
  else if res.2.2.2 then
    cs'.enter_safe_mode SafeModeReason.BudgetExhausted now_us
      cs.guardrails.cooldown_after_flip_us
  else cs'

/-- Run a sequence of `record_delta` calls, each a `(delta, timestamp)` pair. -/
def runDeltas (cs : ControlSafety) : List (ParamVec × ℕ) → ControlSafety
  | [] => cs
  | e :: es => runDeltas (cs.record_delta e.1 e.2) es

/-! ### Specification-side flip counting for C7 -/

/-- Number of sign changes between adjacent elements of a list. -/
def countFlips : List Int → ℕ
  | a :: b :: rest => (if a ≠ b then 1 else 0) + countFlips (b :: rest)
  | _ => 0

/-- The raw direction sequence of parameter `i` over a sequence of
`record_delta` calls (deltas missing dimension `i` contribute `0`, exactly as
an absent loop iteration would). -/
def rawSigns (i : ℕ) (es : List (ParamVec × ℕ)) : List Int :=
  es.map fun e => direction_of (e.1.getD i 0)

/-- The accepted *nonzero* direction sequence of parameter `i`: zero deltas
are excluded. -/
def signs (i : ℕ) (es : List (ParamVec × ℕ)) : List Int :=
  (rawSigns i es).filter (fun s => s != 0)

/-- Pure transition of `(last_direction, flip_count)` under one direction
reading, mirroring the flip-detection logic of `record_delta`. -/
def flipStep (last : Option Int) (count : ℕ) (s : Int) : Option Int × ℕ :=
  if s = 0 then (last, count)
  else
    match last with
    | some l => if l ≠ 0 ∧ l ≠ s then (some s, count + 1) else (some s, count)
    | none => (some s, count)

/-- `flipStep` iterated over a direction sequence. -/
def flipRun (last : Option Int) (count : ℕ) : List Int → Option Int × ℕ
  | [] => (last, count)
  | s :: rest => flipRun (flipStep last count s).1 (flipStep last count s).2 rest

/-- The largest dimension any delta vector in the sequence touches. -/
def maxLen (es : List (ParamVec × ℕ)) : ℕ :=
  es.foldr (fun e m => max e.1.length m) 0

lemma countFlips_snoc (l : List Int) (s : Int) :
    countFlips (l ++ [s])
      = countFlips l + (match l.getLast? with
          | none => 0
          | some a => if a = s then 0 else 1) := by
  induction l with
  | nil => simp [countFlips]
  | cons a t ih =>
    cases t with
    | nil => by_cases h : a = s <;> simp [countFlips, h]
    | cons b t' =>
      show (if a ≠ b then 1 else 0) + countFlips ((b :: t') ++ [s])
          = ((if a ≠ b then 1 else 0) + countFlips (b :: t'))
            + (match (a :: b :: t').getLast? with
                | none => 0
                | some x => if x = s then 0 else 1)
      rw [ih, List.getLast?_cons_cons, Nat.add_assoc]

lemma flipStep_count_le (last : Option Int) (c : ℕ) (s : Int) :
    c ≤ (flipStep last c s).2 ∧ (flipStep last c s).2 ≤ c + 1 := by
  unfold flipStep
  split
  · simp
  · cases last with
    | none => simp
    | some l => dsimp only; split <;> simp

lemma flipRun_count_le (ss : List Int) :
    ∀ (last : Option Int) (c : ℕ), c ≤ (flipRun last c ss).2 := by
  induction ss with
  | nil => intro last c; simp [flipRun]
  | cons s rest ih =>
    intro last c
    calc c ≤ (flipStep last c s).2 := (flipStep_count_le last c s).1
    _ ≤ (flipRun (flipStep last c s).1 (flipStep last c s).2 rest).2 := ih _ _

lemma flipRun_append (ss₁ ss₂ : List Int) :
    ∀ (last : Option Int) (c : ℕ),
      flipRun last c (ss₁ ++ ss₂)
        = flipRun (flipRun last c ss₁).1 (flipRun last c ss₁).2 ss₂ := by
  induction ss₁ with
  | nil => intro last c; simp [flipRun]
  | cons s rest ih => intro last c; simp only [List.cons_append, flipRun]; exact ih _ _

lemma flipRun_filter (ss : List Int) :
    ∀ (l : List Int), (∀ a ∈ l, a ≠ 0) →
      flipRun l.getLast? (countFlips l) ss
        = ((l ++ ss.filter (fun s => s != 0)).getLast?,
           countFlips (l ++ ss.filter (fun s => s != 0))) := by
  induction ss with
  | nil => intro l _; simp [flipRun]
  | cons s rest ih =>
    intro l hl
    by_cases hs : s = 0
    · subst hs
      simp only [flipRun, flipStep, if_pos rfl]
      have h0 : ((0 : Int) != 0) = false := by decide
      simpa [List.filter_cons, h0] using ih l hl
    · have hfil : (s :: rest).filter (fun x => x != 0)
          = s :: rest.filter (fun x => x != 0) := by
        simp [List.filter_cons, hs]
      have hl' : ∀ a ∈ l ++ [s], a ≠ 0 := by
        intro a ha
        rcases List.mem_append.1 ha with h | h
        · exact hl a h
        · simp at h; simpa [h] using hs
      have key : flipStep l.getLast? (countFlips l) s
          = ((l ++ [s]).getLast?, countFlips (l ++ [s])) := by
        rw [countFlips_snoc, List.getLast?_concat]
        unfold flipStep
        rw [if_neg hs]
        cases hlast : l.getLast? with
        | none => simp
        | some a =>
          have hmem : a ∈ l := by
            obtain ⟨hne, heq⟩ := List.mem_getLast?_eq_getLast (l := l) (x := a)
              (by simp [Option.mem_def, hlast])
            rw [heq]
            exact List.getLast_mem hne
          have ha0 : a ≠ 0 := hl a hmem
          by_cases has : a = s
          · simp [has]
          · simp [ha0, has]
      simp only [flipRun, key]
      rw [hfil, ih (l ++ [s]) hl']
      simp

lemma flipRun_signs (i : ℕ) (es : List (ParamVec × ℕ)) :
    flipRun none 0 (rawSigns i es)
      = ((signs i es).getLast?, countFlips (signs i es)) := by
  have h := flipRun_filter (rawSigns i es) [] (by simp)
  simpa [signs, countFlips] using h

lemma enumFromQ_lookup (l : List ℚ) :
    ∀ (n j : ℕ), (enumFromQ n l).lookup j
      = if j < n then none else l.get? (j - n) := by
  induction l with
  | nil => intro n j; cases Nat.lt_or_ge j n <;> simp_all [enumFromQ]
  | cons d rest ih =>
    intro n j
    simp only [enumFromQ, List.lookup]
    by_cases hj : j = n
    · subst hj
      simp [Nat.sub_self]
    · have hbeq : (j == n) = false := by simpa using hj
      rw [hbeq]
      simp only [ih (n + 1) j]
      rcases Nat.lt_trichotomy j n with h | h | h
      · rw [if_pos (by omega), if_pos h]
      · exact absurd h hj
      · rw [if_neg (by omega), if_neg (by omega)]
        have : j - n = (j - (n + 1)) + 1 := by omega
        rw [this]
        rfl

lemma enumFromQ_mem_get (l : List ℚ) :
    ∀ (n : ℕ) (p : ℕ × ℚ), p ∈ enumFromQ n l →
      n ≤ p.1 ∧ l.get? (p.1 - n) = some p.2 := by
  induction l with
  | nil => intro n p hp; simp [enumFromQ] at hp
  | cons d rest ih =>
    intro n p hp
    simp only [enumFromQ, List.mem_cons] at hp
    rcases hp with hp | hp
    · subst hp; simp
    · obtain ⟨h1, h2⟩ := ih (n + 1) p hp
      refine ⟨by omega, ?_⟩
      have : p.1 - n = (p.1 - (n + 1)) + 1 := by omega
      rw [this]
      simpa using h2

lemma enumFromQ_get_mem (l : List ℚ) :
    ∀ (n k : ℕ) (d : ℚ), l.get? k = some d → (n + k, d) ∈ enumFromQ n l := by
  induction l with
  | nil => intro n k d h; simp at h
  | cons x rest ih =>
    intro n k d h
    cases k with
    | zero =>
      simp at h
      simp [enumFromQ, h]
    | succ k' =>
      simp only [List.get?_cons_succ] at h
      have := ih (n + 1) k' d h
      simp only [enumFromQ, List.mem_cons]
      right
      have harith : n + (k' + 1) = (n + 1) + k' := by omega
      rw [harith]
      exact this

lemma enumFromQ_map_fst (l : List ℚ) :
    ∀ n, (enumFromQ n l).map Prod.fst = List.range' n l.length := by
  induction l with
  | nil => intro n; simp [enumFromQ]
  | cons d rest ih =>
    intro n
    simp only [enumFromQ, List.map_cons, List.length_cons, List.range'_succ]
    rw [ih (n + 1)]

lemma lookup_eq_none_of_not_mem {l : List (ℕ × ℚ)} {j : ℕ}
    (h : j ∉ l.map Prod.fst) : List.lookup j l = none := by
  induction l with
  | nil => rfl
  | cons p rest ih =>
    simp only [List.map_cons, List.mem_cons] at h
    push_neg at h
    have hbeq : (j == p.1) = false := by simpa using h.1
    simp only [List.lookup, hbeq]
    exact ih h.2

lemma stepHistory_no_reset (g : CtrlGuardrails) (h : DirectionHistory) (d : ℚ)
    (now : ℕ) (hws : h.window_start_us = 0) (hnow : now ≤ 60000000) :
    stepHistory g h d now
      = (⟨(flipStep h.last_direction h.flip_count (direction_of d)).1,
          (flipStep h.last_direction h.flip_count (direction_of d)).2, 0⟩,
         decide ((flipStep h.last_direction h.flip_count (direction_of d)).2 ≠ h.flip_count)
           && decide ((flipStep h.last_direction h.flip_count (direction_of d)).2
                > g.direction_flip_limit)) := by
  obtain ⟨hlast, hcount, hw⟩ := h
  simp only at hws
  subst hws
  have hreset : ¬ (60000000 < now) := by omega
  by_cases hdir : direction_of d = 0
  · simp [stepHistory, flipStep, hreset, hdir]
  · cases hlast with
    | none => simp [stepHistory, flipStep, hreset, hdir]
    | some last =>
      by_cases hcond : last ≠ 0 ∧ last ≠ direction_of d
      · have hne : hcount + 1 ≠ hcount := by omega
        simp [stepHistory, flipStep, hreset, hdir, hcond, hne]
      · simp [stepHistory, flipStep, hreset, hdir, hcond]

lemma any_congr_mem {α : Type} {l : List α} {f h : α → Bool}
    (hfh : ∀ x ∈ l, f x = h x) : l.any f = l.any h := by
  induction l with
  | nil => rfl
  | cons a t ih =>
    simp only [List.any_cons]
    rw [hfh a (by simp), ih (fun x hx => hfh x (by simp [hx]))]

lemma recordLoop_spec (g : CtrlGuardrails) (now : ℕ) :
    ∀ (l : List (ℕ × ℚ)) (t : ℕ → DirectionHistory) (b : ℕ → DeltaBudget) (th ov : Bool),
      (l.map Prod.fst).Nodup →
      (∀ j, (recordLoop g now l t b th ov).1 j
          = match List.lookup j l with
            | some d => (stepHistory g (t j) d now).1
            | none => t j)
        ∧ (recordLoop g now l t b th ov).2.2.1
            = (th || l.any fun p => (stepHistory g (t p.1) p.2 now).2) := by
  intro l
  induction l with
  | nil =>
    intro t b th ov _
    exact ⟨fun j => rfl, by simp [recordLoop]⟩
  | cons p rest ih =>
    intro t b th ov hnodup
    have hnd : (rest.map Prod.fst).Nodup := (List.nodup_cons.1 (by simpa using hnodup)).2
    have hnotmem : p.1 ∉ rest.map Prod.fst := (List.nodup_cons.1 (by simpa using hnodup)).1
    have hstep := ih (fun j => if j = p.1 then (stepHistory g (t p.1) p.2 now).1 else t j)
      (fun j => if j = p.1 then (stepBudget g (b p.1) p.2 now).1 else b j)
      (th || (stepHistory g (t p.1) p.2 now).2)
      (ov || (stepBudget g (b p.1) p.2 now).2) hnd
    constructor
    · intro j
      have hL : (recordLoop g now (p :: rest) t b th ov).1 j
          = (recordLoop g now rest
              (fun j => if j = p.1 then (stepHistory g (t p.1) p.2 now).1 else t j)
              (fun j => if j = p.1 then (stepBudget g (b p.1) p.2 now).1 else b j)
              (th || (stepHistory g (t p.1) p.2 now).2)
              (ov || (stepBudget g (b p.1) p.2 now).2)).1 j := rfl
      rw [hL, hstep.1 j]
      by_cases hj : j = p.1
      · have hrest : List.lookup j rest = none := by
          rw [hj]
          exact lookup_eq_none_of_not_mem hnotmem
        have hcons : List.lookup j (p :: rest) = some p.2 := by
          obtain ⟨k, d⟩ := p
          simp only at hj
          simp [List.lookup, hj]
        rw [hrest, hcons]
        simp [hj]
      · have hbeq : (j == p.1) = false := by simpa using hj
        have hcons : List.lookup j (p :: rest) = List.lookup j rest := by
          cases p with
          | mk k d =>
            simp only [List.lookup]
            simp only at hbeq
            rw [hbeq]
        rw [hcons]
        cases List.lookup j rest <;> simp [hj]
    · have hL : (recordLoop g now (p :: rest) t b th ov).2.2.1
          = (recordLoop g now rest
              (fun j => if j = p.1 then (stepHistory g (t p.1) p.2 now).1 else t j)
              (fun j => if j = p.1 then (stepBudget g (b p.1) p.2 now).1 else b j)
              (th || (stepHistory g (t p.1) p.2 now).2)
              (ov || (stepBudget g (b p.1) p.2 now).2)).2.2.1 := rfl
      rw [hL, hstep.2]
      have hany : (rest.any fun q =>
            (stepHistory g ((fun j => if j = p.1 then (stepHistory g (t p.1) p.2 now).1
              else t j) q.1) q.2 now).2)
          = rest.any fun q => (stepHistory g (t q.1) q.2 now).2 := by
        apply any_congr_mem
        intro q hq
        have hne : q.1 ≠ p.1 := by
          intro heq
          exact hnotmem (heq ▸ List.mem_map_of_mem Prod.fst hq)
        simp [hne]
      rw [hany]
      simp [List.any_cons, Bool.or_assoc]

/-- The thrashing trigger a `record_delta` call computes, expressed against
the pre-call state. -/
def thrashFlag (cs : ControlSafety) (delta : ParamVec) (now : ℕ) : Bool :=
  (enumFromQ 0 delta).any fun p =>
    (stepHistory cs.guardrails (cs.direction_tracker p.1) p.2 now).2

lemma record_delta_spec (cs : ControlSafety) (delta : ParamVec) (now : ℕ)
    (hws : ∀ i, (cs.direction_tracker i).window_start_us = 0)
    (hnow : now ≤ 60000000) :
    (∀ i, (cs.record_delta delta now).direction_tracker i
        = ⟨(flipStep (cs.direction_tracker i).last_direction
              (cs.direction_tracker i).flip_count (direction_of (delta.getD i 0))).1,
           (flipStep (cs.direction_tracker i).last_direction
              (cs.direction_tracker i).flip_count (direction_of (delta.getD i 0))).2, 0⟩)
      ∧ (cs.record_delta delta now).guardrails = cs.guardrails
      ∧ (thrashFlag cs delta now = true →
          (cs.record_delta delta now).safe_mode
            = some ⟨now, SafeModeReason.Thrashing,
                    SafeModeExit.Timer cs.guardrails.cooldown_after_flip_us⟩)
      ∧ (thrashFlag cs delta now = false →
          (cs.record_delta delta now).safe_mode = cs.safe_mode
            ∨ (cs.record_delta delta now).safe_mode
                = some ⟨now, SafeModeReason.BudgetExhausted,
                        SafeModeExit.Timer cs.guardrails.cooldown_after_flip_us⟩) := by
  have hnodup : ((enumFromQ 0 delta).map Prod.fst).Nodup := by
    rw [enumFromQ_map_fst]
    exact List.nodup_range' (s := 0) (n := delta.length)
  have hloop := recordLoop_spec cs.guardrails now (enumFromQ 0 delta)
    cs.direction_tracker cs.delta_budget false false hnodup
  have hflag : (recordLoop cs.guardrails now (enumFromQ 0 delta)
      cs.direction_tracker cs.delta_budget false false).2.2.1 = thrashFlag cs delta now := by
    rw [hloop.2]
    simp [thrashFlag]
  refine ⟨?_, ?_, ?_, ?_⟩
  · intro i
    have htr : (cs.record_delta delta now).direction_tracker
        = (recordLoop cs.guardrails now (enumFromQ 0 delta)
            cs.direction_tracker cs.delta_budget false false).1 := by
      unfold ControlSafety.record_delta
      by_cases h1 : (recordLoop cs.guardrails now (enumFromQ 0 delta)
          cs.direction_tracker cs.delta_budget false false).2.2.1
      · simp [h1, ControlSafety.enter_safe_mode]
      · by_cases h2 : (recordLoop cs.guardrails now (enumFromQ 0 delta)
            cs.direction_tracker cs.delta_budget false false).2.2.2
        · simp [h1, h2, ControlSafety.enter_safe_mode]
        · simp [h1, h2]
    rw [htr, hloop.1 i]
    rw [enumFromQ_lookup, if_neg (Nat.not_lt_zero i), Nat.sub_zero]
    cases hget : delta.get? i with
    | none =>
      have hgetd : delta.getD i 0 = 0 := by
        rw [List.getD_eq_getElem?_getD, ← List.get?_eq_getElem?, hget]
        rfl
      rw [hgetd]
      have hdir : direction_of 0 = 0 := by simp [direction_of]
      rw [hdir]
      simp only [flipStep, if_pos rfl]
      have hwsi := hws i
      cases htr' : cs.direction_tracker i with
      | mk a b c =>
        rw [htr'] at hwsi
        simp only at hwsi
        simp [hwsi]
    | some d =>
      have hgetd : delta.getD i 0 = d := by
        rw [List.getD_eq_getElem?_getD, ← List.get?_eq_getElem?, hget]
        rfl
      rw [hgetd]
      simp only []
      rw [stepHistory_no_reset cs.guardrails _ d now (hws i) hnow]
  · unfold ControlSafety.record_delta
    by_cases h1 : (recordLoop cs.guardrails now (enumFromQ 0 delta)
        cs.direction_tracker cs.delta_budget false false).2.2.1
    · simp [h1, ControlSafety.enter_safe_mode]
    · by_cases h2 : (recordLoop cs.guardrails now (enumFromQ 0 delta)
          cs.direction_tracker cs.delta_budget false false).2.2.2
      · simp [h1, h2, ControlSafety.enter_safe_mode]
      · simp [h1, h2]
  · intro hfl
    unfold ControlSafety.record_delta
    rw [hflag.symm] at hfl
    simp [hfl, ControlSafety.enter_safe_mode]
  · intro hfl
    unfold ControlSafety.record_delta
    rw [hflag.symm] at hfl
    by_cases h2 : (recordLoop cs.guardrails now (enumFromQ 0 delta)
        cs.direction_tracker cs.delta_budget false false).2.2.2
    · right
      simp [hfl, h2, ControlSafety.enter_safe_mode]
    · left
      simp [hfl, h2]

lemma maxLen_le (es : List (ParamVec × ℕ)) : ∀ e ∈ es, e.1.length ≤ maxLen es := by
  induction es with
  | nil => intro e he; simp at he
  | cons a rest ih =>
    intro e he
    rcases List.mem_cons.1 he with he | he
    · subst he; simp [maxLen]
    · calc e.1.length ≤ maxLen rest := ih e he
      _ ≤ maxLen (a :: rest) := by simp [maxLen]

lemma signs_nil_of_len_le (i : ℕ) (es : List (ParamVec × ℕ))
    (h : ∀ e ∈ es, e.1.length ≤ i) : signs i es = [] := by
  induction es with
  | nil => rfl
  | cons e rest ih =>
    have hgd : e.1.getD i 0 = 0 :=
      List.getD_eq_default e.1 0 (h e (by simp))
    have hdir : direction_of (e.1.getD i 0) = 0 := by
      rw [hgd]; simp [direction_of]
    simp only [signs, rawSigns, List.map_cons, List.filter_cons, hdir]
    have h0 : ((0 : Int) != 0) = false := by decide
    rw [h0]
    exact ih fun x hx => h x (by simp [hx])

lemma rawSigns_append (i : ℕ) (l₁ l₂ : List (ParamVec × ℕ)) :
    rawSigns i (l₁ ++ l₂) = rawSigns i l₁ ++ rawSigns i l₂ := by
  simp [rawSigns]

lemma countFlips_signs_prefix (i : ℕ) (l₁ l₂ : List (ParamVec × ℕ)) :
    countFlips (signs i l₁) ≤ countFlips (signs i (l₁ ++ l₂)) := by
  have h1 := flipRun_signs i l₁
  have h2 := flipRun_signs i (l₁ ++ l₂)
  calc countFlips (signs i l₁) = (flipRun none 0 (rawSigns i l₁)).2 := by rw [h1]
  _ ≤ (flipRun (flipRun none 0 (rawSigns i l₁)).1
        (flipRun none 0 (rawSigns i l₁)).2 (rawSigns i l₂)).2 := flipRun_count_le _ _ _
  _ = (flipRun none 0 (rawSigns i l₁ ++ rawSigns i l₂)).2 := by rw [flipRun_append]
  _ = (flipRun none 0 (rawSigns i (l₁ ++ l₂))).2 := by rw [rawSigns_append]
  _ = countFlips (signs i (l₁ ++ l₂)) := by rw [h2]

lemma runDeltas_append (l₁ l₂ : List (ParamVec × ℕ)) :
    ∀ cs : ControlSafety, runDeltas cs (l₁ ++ l₂) = runDeltas (runDeltas cs l₁) l₂ := by
  induction l₁ with
  | nil => intro cs; rfl
  | cons e rest ih => intro cs; simp only [List.cons_append, runDeltas]; exact ih _

lemma runDeltas_tracker (es : List (ParamVec × ℕ)) :
    ∀ cs : ControlSafety,
      (∀ e ∈ es, e.2 ≤ 60000000) →
      (∀ i, (cs.direction_tracker i).window_start_us = 0) →
      (runDeltas cs es).guardrails = cs.guardrails
        ∧ ∀ i, (runDeltas cs es).direction_tracker i
            = ⟨(flipRun (cs.direction_tracker i).last_direction
                  (cs.direction_tracker i).flip_count (rawSigns i es)).1,
               (flipRun (cs.direction_tracker i).last_direction
                  (cs.direction_tracker i).flip_count (rawSigns i es)).2, 0⟩ := by
  induction es with
  | nil =>
    intro cs _ hws
    refine ⟨rfl, fun i => ?_⟩
    have hwsi := hws i
    cases htr : cs.direction_tracker i with
    | mk a b c =>
      rw [htr] at hwsi
      simp only at hwsi
      simp [runDeltas, flipRun, rawSigns, htr, hwsi]
  | cons e rest ih =>
    intro cs hts hws
    have hnow : e.2 ≤ 60000000 := hts e (by simp)
    have hspec := record_delta_spec cs e.1 e.2 hws hnow
    have hws' : ∀ i, ((cs.record_delta e.1 e.2).direction_tracker i).window_start_us = 0 := by
      intro i
      rw [hspec.1 i]
    have hrest := ih (cs.record_delta e.1 e.2) (fun x hx => hts x (by simp [hx])) hws'
    constructor
    · show (runDeltas (cs.record_delta e.1 e.2) rest).guardrails = _
      rw [hrest.1, hspec.2.1]
    · intro i
      show (runDeltas (cs.record_delta e.1 e.2) rest).direction_tracker i = _
      rw [hrest.2 i, hspec.1 i]
      simp only [rawSigns, List.map_cons, flipRun]

lemma runDeltas_noThrash (es : List (ParamVec × ℕ)) :
    ∀ cs : ControlSafety,
      (∀ e ∈ es, e.2 ≤ 60000000) →
      (∀ i, (cs.direction_tracker i).window_start_us = 0) →
      (∀ sm ∈ cs.safe_mode, sm.reason ≠ SafeModeReason.Thrashing) →
      (∀ i, (flipRun (cs.direction_tracker i).last_direction
          (cs.direction_tracker i).flip_count (rawSigns i es)).2
        ≤ cs.guardrails.direction_flip_limit) →
      ∀ sm ∈ (runDeltas cs es).safe_mode, sm.reason ≠ SafeModeReason.Thrashing := by
  induction es with
  | nil => intro cs _ _ hsm _; exact hsm
  | cons e rest ih =>
    intro cs hts hws hsm hcap
    have hnow : e.2 ≤ 60000000 := hts e (by simp)
    have hspec := record_delta_spec cs e.1 e.2 hws hnow
    have hflag : thrashFlag cs e.1 e.2 = false := by
      cases hfl : thrashFlag cs e.1 e.2 with
      | false => rfl
      | true =>
        exfalso
        unfold thrashFlag at hfl
        obtain ⟨p, hp, hpt⟩ := List.any_eq_true.1 hfl
        obtain ⟨-, hget⟩ := enumFromQ_mem_get e.1 0 p hp
        have hgd : e.1.getD p.1 0 = p.2 := by
          rw [List.getD_eq_getElem?_getD, ← List.get?_eq_getElem?]
          rw [Nat.sub_zero] at hget
          rw [hget]
          rfl
        rw [stepHistory_no_reset cs.guardrails _ _ e.2 (hws p.1) hnow] at hpt
        rw [Bool.and_eq_true, decide_eq_true_eq, decide_eq_true_eq] at hpt
        have hgt : (flipStep (cs.direction_tracker p.1).last_direction
            (cs.direction_tracker p.1).flip_count (direction_of p.2)).2
              > cs.guardrails.direction_flip_limit := hpt.2
        have hle := hcap p.1
        rw [show rawSigns p.1 (e :: rest)
            = direction_of (e.1.getD p.1 0) :: rawSigns p.1 rest from rfl, hgd] at hle
        have := flipRun_count_le (rawSigns p.1 rest)
          (flipStep (cs.direction_tracker p.1).last_direction
            (cs.direction_tracker p.1).flip_count (direction_of p.2)).1
          (flipStep (cs.direction_tracker p.1).last_direction
            (cs.direction_tracker p.1).flip_count (direction_of p.2)).2
        simp only [flipRun] at hle
        omega
    have hsm' : ∀ sm ∈ (cs.record_delta e.1 e.2).safe_mode,
        sm.reason ≠ SafeModeReason.Thrashing := by
      rcases hspec.2.2.2 hflag with hcase | hcase
      · rw [hcase]; exact hsm
      · rw [hcase]; intro sm hsm'; simp at hsm'; subst hsm'; simp
    have hcap' : ∀ i, (flipRun ((cs.record_delta e.1 e.2).direction_tracker i).last_direction
        ((cs.record_delta e.1 e.2).direction_tracker i).flip_count (rawSigns i rest)).2
          ≤ (cs.record_delta e.1 e.2).guardrails.direction_flip_limit := by
      intro i
      rw [hspec.1 i, hspec.2.1]
      have hle := hcap i
      rw [show rawSigns i (e :: rest)
          = direction_of (e.1.getD i 0) :: rawSigns i rest from rfl] at hle
      simpa [flipRun] using hle
    exact ih (cs.record_delta e.1 e.2) (fun x hx => hts x (by simp [hx]))
      (fun i => by rw [hspec.1 i]) hsm' hcap'

lemma record_delta_crossing (cs : ControlSafety) (delta : ParamVec) (now i : ℕ)
    (hws : ∀ i', (cs.direction_tracker i').window_start_us = 0)
    (hnow : now ≤ 60000000)
    (hle : (cs.direction_tracker i).flip_count ≤ cs.guardrails.direction_flip_limit)
    (hcross : (flipStep (cs.direction_tracker i).last_direction
        (cs.direction_tracker i).flip_count (direction_of (delta.getD i 0))).2
      > cs.guardrails.direction_flip_limit) :
    (cs.record_delta delta now).safe_mode
      = some ⟨now, SafeModeReason.Thrashing,
              SafeModeExit.Timer cs.guardrails.cooldown_after_flip_us⟩ := by
  have hspec := record_delta_spec cs delta now hws hnow
  apply hspec.2.2.1
  have hne : (flipStep (cs.direction_tracker i).last_direction
      (cs.direction_tracker i).flip_count (direction_of (delta.getD i 0))).2
        ≠ (cs.direction_tracker i).flip_count := by omega
  have hd0 : delta.getD i 0 ≠ 0 := by
    intro h0
    rw [h0] at hne
    simp [direction_of, flipStep] at hne
  have hlen : i < delta.length := by
    by_contra hge
    push_neg at hge
    exact hd0 (List.getD_eq_default delta 0 hge)
  have hget : delta.get? i = some (delta.getD i 0) := by
    cases hg : delta.get? i with
    | none =>
      have := List.get?_eq_none.1 hg
      omega
    | some v =>
      have hv : delta.getD i 0 = v := by
        rw [List.getD_eq_getElem?_getD, ← List.get?_eq_getElem?, hg]
        rfl
      rw [hv]
  have hmem : (0 + i, delta.getD i 0) ∈ enumFromQ 0 delta :=
    enumFromQ_get_mem delta 0 i _ hget
  unfold thrashFlag
  apply List.any_eq_true.2
  refine ⟨(0 + i, delta.getD i 0), hmem, ?_⟩
  have h0i : (0 + i : ℕ) = i := by omega
  rw [show ((0 + i, delta.getD i 0) : ℕ × ℚ).1 = i from h0i]
  rw [stepHistory_no_reset cs.guardrails _ _ now (hws i) hnow]
  rw [Bool.and_eq_true, decide_eq_true_eq, decide_eq_true_eq]
  exact ⟨hne, hcross⟩

/-- **C7 counterexample.** The claim's closing conjunct — "while fewer flips
have occurred no SafeMode is entered" — is false: with
`max_cumulative_delta_per_minute = 0`, a single `record_delta` of `δ = [1]`
at `t = 1000` (zero direction flips, well under `direction_flip_limit = 5`)
latches `SafeMode` with reason `BudgetExhausted`. -/
theorem control_safety_budget_counterexample :
    (runDeltas (ControlSafety.new
        { direction_flip_limit := 5, cooldown_after_flip_us := 1000
          max_cumulative_delta_per_minute := 0, regression_count_limit := 3 })
        [([1], 1000)]).safe_mode
        = some ⟨1000, SafeModeReason.BudgetExhausted, SafeModeExit.Timer 1000⟩
      ∧ countFlips (signs 0 [([1], 1000)]) = 0 := by
  constructor
  · show (ControlSafety.record_delta _ [1] 1000).safe_mode = _
    simp [ControlSafety.record_delta, recordLoop, enumFromQ, stepHistory, stepBudget,
      direction_of, ControlSafety.new, ControlSafety.enter_safe_mode]
  · simp [signs, rawSigns, direction_of, countFlips]

/-- **C7 (amended).** Starting from a fresh `ControlSafety` with guardrails
`g`, over any sequence of `record_delta` calls whose timestamps lie within the
first 60-second window: if the accepted nonzero deltas of some parameter
change sign more than `direction_flip_limit` times (`countFlips` over
`signs`, which excludes zero deltas by construction), then at some call the
state latches `SafeMode` with reason `Thrashing` and a `Timer` exit whose
`remaining_us` equals `cooldown_after_flip_us`; while no parameter has
exceeded the flip limit, no state of the run ever carries a `Thrashing`
SafeMode.  (Amendment forced by the counterexample: a `BudgetExhausted`
SafeMode can still be latched with fewer flips, so only *Thrashing*
SafeMode is excluded.) -/
theorem control_safety_thrashing_spec (g : CtrlGuardrails)
    (entries : List (ParamVec × ℕ))
    (hts : ∀ e ∈ entries, e.2 ≤ 60000000) :
    if _hex : ∃ i ∈ List.range (maxLen entries),
        countFlips (signs i entries) > g.direction_flip_limit then
      ∃ j, j < entries.length
        ∧ (runDeltas (ControlSafety.new g) (entries.take (j + 1))).safe_mode
            = some ⟨(entries.getD j ([], 0)).2, SafeModeReason.Thrashing,
                    SafeModeExit.Timer g.cooldown_after_flip_us⟩
    else
      ∀ j, ∀ sm ∈ (runDeltas (ControlSafety.new g) (entries.take j)).safe_mode,
        sm.reason ≠ SafeModeReason.Thrashing := by
  by_cases hex : ∃ i ∈ List.range (maxLen entries),
      countFlips (signs i entries) > g.direction_flip_limit
  · rw [dif_pos hex]
    obtain ⟨i0, hi0mem, hi0⟩ := hex
    have hne : entries ≠ [] := by
      intro h0
      rw [h0] at hi0
      simp [signs, rawSigns, countFlips] at hi0
    have hlenpos : 0 < entries.length := List.length_pos.2 hne
    haveI hPdec : DecidablePred (fun m => ∃ i ∈ List.range (maxLen entries),
        countFlips (signs i (entries.take (m + 1))) > g.direction_flip_limit) :=
      fun m => List.decidableBEx _ _
    have hp1 : ∃ i ∈ List.range (maxLen entries),
        countFlips (signs i (entries.take (entries.length - 1 + 1)))
          > g.direction_flip_limit := by
      refine ⟨i0, hi0mem, ?_⟩
      rw [show entries.length - 1 + 1 = entries.length from by omega, List.take_length]
      exact hi0
    have hPex : ∃ m, ∃ i ∈ List.range (maxLen entries),
        countFlips (signs i (entries.take (m + 1))) > g.direction_flip_limit :=
      ⟨entries.length - 1, hp1⟩
    have hjlt : Nat.find hPex < entries.length := by
      have := Nat.find_min' hPex hp1
      omega
    have hbefore : ∀ i',
        countFlips (signs i' (entries.take (Nat.find hPex)))
          ≤ g.direction_flip_limit := by
      intro i'
      by_cases hi' : i' < maxLen entries
      · cases hj0 : Nat.find hPex with
        | zero => simp [signs, rawSigns, countFlips]
        | succ m =>
          have hnot := Nat.find_min hPex (show m < Nat.find hPex from by omega)
          push_neg at hnot
          exact hnot i' (List.mem_range.2 hi')
      · push_neg at hi'
        have hnil : signs i' (entries.take (Nat.find hPex)) = [] :=
          signs_nil_of_len_le _ _ fun e he =>
            le_trans (maxLen_le entries e (List.take_subset _ _ he)) hi'
        rw [hnil]
        simp [countFlips]
    obtain ⟨ej, hgetj⟩ : ∃ ej, entries.get? (Nat.find hPex) = some ej := by
      cases hg : entries.get? (Nat.find hPex) with
      | none =>
        have := List.get?_eq_none.1 hg
        omega
      | some v => exact ⟨v, rfl⟩
    have hgetj' : entries[Nat.find hPex]? = some ej := by
      rw [← List.get?_eq_getElem?]
      exact hgetj
    have htake : entries.take (Nat.find hPex + 1)
        = entries.take (Nat.find hPex) ++ [ej] := by
      rw [List.take_succ, hgetj']
      rfl
    have hspl : runDeltas (ControlSafety.new g) (entries.take (Nat.find hPex + 1))
        = (runDeltas (ControlSafety.new g)
            (entries.take (Nat.find hPex))).record_delta ej.1 ej.2 := by
      rw [htake, runDeltas_append]
      rfl
    have hmaster := runDeltas_tracker (entries.take (Nat.find hPex))
      (ControlSafety.new g)
      (fun e he => hts e (List.take_subset _ _ he)) (fun i => rfl)
    have hgetD : entries.getD (Nat.find hPex) ([], 0) = ej := by
      rw [List.getD_eq_getElem?_getD, ← List.get?_eq_getElem?, hgetj]
      rfl
    obtain ⟨i, himem, higt⟩ := Nat.find_spec hPex
    have hws' : ∀ i', ((runDeltas (ControlSafety.new g)
        (entries.take (Nat.find hPex))).direction_tracker i').window_start_us = 0 := by
      intro i'
      rw [hmaster.2 i']
    have hcnt : ∀ i', ((runDeltas (ControlSafety.new g)
        (entries.take (Nat.find hPex))).direction_tracker i').flip_count
          = countFlips (signs i' (entries.take (Nat.find hPex))) := by
      intro i'
      rw [hmaster.2 i']
      show (flipRun none 0 (rawSigns i' (entries.take (Nat.find hPex)))).2 = _
      rw [flipRun_signs]
    have hle' : ((runDeltas (ControlSafety.new g)
        (entries.take (Nat.find hPex))).direction_tracker i).flip_count
          ≤ (runDeltas (ControlSafety.new g)
              (entries.take (Nat.find hPex))).guardrails.direction_flip_limit := by
      rw [hcnt i, hmaster.1]
      exact hbefore i
    have hcross' : (flipStep ((runDeltas (ControlSafety.new g)
          (entries.take (Nat.find hPex))).direction_tracker i).last_direction
        ((runDeltas (ControlSafety.new g)
          (entries.take (Nat.find hPex))).direction_tracker i).flip_count
        (direction_of (ej.1.getD i 0))).2
          > (runDeltas (ControlSafety.new g)
              (entries.take (Nat.find hPex))).guardrails.direction_flip_limit := by
      rw [hmaster.2 i, hmaster.1]
      show (flipStep (flipRun none 0 (rawSigns i (entries.take (Nat.find hPex)))).1
          (flipRun none 0 (rawSigns i (entries.take (Nat.find hPex)))).2
          (direction_of (ej.1.getD i 0))).2 > g.direction_flip_limit
      have hsnoc : flipStep
          (flipRun none 0 (rawSigns i (entries.take (Nat.find hPex)))).1
          (flipRun none 0 (rawSigns i (entries.take (Nat.find hPex)))).2
          (direction_of (ej.1.getD i 0))
            = flipRun none 0 (rawSigns i (entries.take (Nat.find hPex))
                ++ [direction_of (ej.1.getD i 0)]) := by
        rw [flipRun_append]
        rfl
      rw [hsnoc,
        show rawSigns i (entries.take (Nat.find hPex)) ++ [direction_of (ej.1.getD i 0)]
          = rawSigns i (entries.take (Nat.find hPex) ++ [ej]) from
            (rawSigns_append i _ [ej]).symm,
        ← htake, flipRun_signs]
      exact higt
    have hres := record_delta_crossing
      (runDeltas (ControlSafety.new g) (entries.take (Nat.find hPex)))
      ej.1 ej.2 i hws' (hts ej (List.get?_mem hgetj)) hle' hcross'
    refine ⟨Nat.find hPex, hjlt, ?_⟩
    rw [hspl, hgetD, hres, hmaster.1]
    rfl
  · rw [dif_neg hex]
    intro j
    have hcap : ∀ i, countFlips (signs i entries) ≤ g.direction_flip_limit := by
      intro i
      by_cases hi : i < maxLen entries
      · by_contra hgt
        push_neg at hgt
        exact hex ⟨i, List.mem_range.2 hi, hgt⟩
      · push_neg at hi
        have hnil : signs i entries = [] :=
          signs_nil_of_len_le i entries fun e he => le_trans (maxLen_le entries e he) hi
        rw [hnil]
        simp [countFlips]
    apply runDeltas_noThrash (entries.take j) (ControlSafety.new g)
    · exact fun e he => hts e (List.take_subset j entries he)
    · intro i
      rfl
    · intro sm hsm
      simp [ControlSafety.new] at hsm
    · intro i
      show (flipRun none 0 (rawSigns i (entries.take j))).2 ≤ g.direction_flip_limit
      have h2 : (flipRun none 0 (rawSigns i (entries.take j))).2
          = countFlips (signs i (entries.take j)) := by
        rw [flipRun_signs]
      rw [h2]
      calc countFlips (signs i (entries.take j))
          ≤ countFlips (signs i (entries.take j ++ entries.drop j)) :=
            countFlips_signs_prefix i _ _
      _ = countFlips (signs i entries) := by rw [List.take_append_drop]
      _ ≤ g.direction_flip_limit := hcap i

/-- Witness for C7 (amended): `direction_flip_limit = 1`, three calls
`δ = [1], [-1], [1]` at `t = 1000, 2000, 3000` produce two flips, so the
theorem applies with its timestamp hypothesis discharged concretely. -/
theorem control_safety_thrashing_witness :
    (∀ e ∈ ([([1], 1000), ([-1], 2000), ([1], 3000)] : List (ParamVec × ℕ)),
        e.2 ≤ 60000000)
      ∧ (if _hex : ∃ i ∈ List.range (maxLen [([1], 1000), ([-1], 2000), ([1], 3000)]),
            countFlips (signs i [([1], 1000), ([-1], 2000), ([1], 3000)])
              > ({ direction_flip_limit := 1, cooldown_after_flip_us := 500
                   max_cumulative_delta_per_minute := 1000
                   regression_count_limit := 3 } : CtrlGuardrails).direction_flip_limit then
          ∃ j, j < ([([1], 1000), ([-1], 2000), ([1], 3000)] : List (ParamVec × ℕ)).length
            ∧ (runDeltas (ControlSafety.new
                  { direction_flip_limit := 1, cooldown_after_flip_us := 500
                    max_cumulative_delta_per_minute := 1000
                    regression_count_limit := 3 })
                ([([1], 1000), ([-1], 2000), ([1], 3000)].take (j + 1))).safe_mode
                = some ⟨(([([1], 1000), ([-1], 2000), ([1], 3000)]
                          : List (ParamVec × ℕ)).getD j ([], 0)).2,
                        SafeModeReason.Thrashing, SafeModeExit.Timer 500⟩
        else
          ∀ j, ∀ sm ∈ (runDeltas (ControlSafety.new
                { direction_flip_limit := 1, cooldown_after_flip_us := 500
                  max_cumulative_delta_per_minute := 1000
                  regression_count_limit := 3 })
              ([([1], 1000), ([-1], 2000), ([1], 3000)].take j)).safe_mode,
            sm.reason ≠ SafeModeReason.Thrashing) :=
  ⟨by decide,
   control_safety_thrashing_spec
     { direction_flip_limit := 1, cooldown_after_flip_us := 500
       max_cumulative_delta_per_minute := 1000, regression_count_limit := 3 }
     [([1], 1000), ([-1], 2000), ([1], 3000)] (by decide)⟩

end ArqonSpec
